import Mathlib

/-!
Verification development for the btc_puzzle_hunter search engine.

Shallow embedding of the core operations of the repository:
  * `calculateWalkParameters` — the benchmark-driven parameter planner
    (src/lib.rs, `calculate_walk_parameters`);
  * `distributeRangeToWorkers` — the capacity-proportional work allocator
    (src/lib.rs, `distribute_range_to_workers`);
  * `batchCount` / `batchStart` / `batchEnd` — the sequential batch searcher's
    range partition (src/main.rs, `search_range`);
  * `adaptiveRandomWalkSearch` — the adaptive random-walk explorer
    (src/random_walk.rs, `adaptive_random_walk_search`).

Modelling conventions:
  * `BigUint` values are `ℕ`; machine integers (`u64`, `usize`) are `ℕ` with an
    explicit `% 2 ^ 64` or `min (2 ^ 64 - 1)` where the code can overflow or
    saturate.  `BigUint` subtraction panics on underflow in Rust, so code paths
    that can reach such a subtraction with minuend < subtrahend return `none`
    (or a dedicated `panicked` constructor) for those inputs.
  * fallible operations return `Option`; a panic is `none` / `.panicked`.
  * the IEEE-754 `f64` products `hashes_per_second * target_time * 60.0` are
    abstracted as an explicit `budget` argument (a natural number per worker);
    the concrete theorems instantiate it with products that an exact f64
    computation produces (all operands and results below 2 ^ 53, where f64
    arithmetic on integers is exact).  The f64 quotient stored in
    `estimated_time_minutes` is modelled as the exact rational of the same
    operands.
-/

/-- A worker, as in `struct Worker` of src/lib.rs: a name and a benchmarked
throughput in candidate keys per second (`hashes_per_second : u64`). -/
structure Worker where
  name : String
  hashes_per_second : ℕ
deriving DecidableEq, Repr

/-- Lowercase, unpadded hexadecimal rendering of a natural number, as produced
by Rust's `format!("dummy", v)` with the `x` formatter on a `BigUint`. -/
def toHexLower (n : ℕ) : String :=
  String.mk (Nat.toDigits 16 n)

/-- Fixed-width 64-hex-digit, zero-padded rendering, as produced by the `064x`
formatter used for a found private key. -/
def format064x (n : ℕ) : String :=
  let ds := Nat.toDigits 16 n
  String.mk (List.replicate (64 - ds.length) '0' ++ ds)

/-- The `estimated_time_minutes` computation of `distribute_range_to_workers`:
`range_size_u64 as f64 / (hashes_per_second as f64 * 60.0)`, modelled as the
exact rational quotient of the same operands.  (`mkRat` with a zero
denominator yields 0; the corresponding f64 division by zero yields infinity,
but no code path proved below reaches a constructed assignment with
`hashes_per_second = 0`.) -/
def estTimeMinutes (hashes_per_second range_size_u64 : ℕ) : ℚ :=
  mkRat range_size_u64 (hashes_per_second * 60)

/-- One assignment of `struct WorkerRange` in src/lib.rs.  The source stores
the subrange boundaries as hex strings produced by the `x` formatter from the
`BigUint` cursor values; we keep the numeric boundary values (`start_val`,
`end_val`) and derive the hex renderings from them (the formatter is injective
on values, so nothing is lost). -/
structure WorkerRange where
  worker_name : String
  hashes_per_second : ℕ
  start_val : ℕ
  end_val : ℕ
  range_size : ℕ
  estimated_time_minutes : ℚ
deriving DecidableEq, Repr

/-- The `start_hex` field of `WorkerRange`: `format!("dummy", current_position)`
with the `x` formatter. -/
def WorkerRange.start_hex (wr : WorkerRange) : String := toHexLower wr.start_val

/-- The `end_hex` field of `WorkerRange`: `format!("dummy", worker_end)` with
the `x` formatter. -/
def WorkerRange.end_hex (wr : WorkerRange) : String := toHexLower wr.end_val

/-- Outcome of `distribute_range_to_workers`: the function returns
`anyhow::Result`, whose only constructed error is "No workers provided";
`panicked` models the `BigUint` subtraction panics reachable inside it. -/
inductive DistResult where
  | panicked
  | error (msg : String)
  | ok (ranges : List WorkerRange) (leftover : Option (ℕ × ℕ))
deriving DecidableEq, Repr

/-- The per-worker loop of `distribute_range_to_workers` (src/lib.rs:42-78).
`budget w` models `(w.hashes_per_second as f64 * target_time_minutes * 60.0)
as u64`, the number of keys worker `w` can process in the target time.
Returns the assignment list and the final cursor, or `none` if a `BigUint`
subtraction underflows (which panics in the source):
  * `current_position + budget - 1` underflows iff both are zero;
  * `worker_end - current_position` underflows iff `worker_end` is below the
    cursor, which happens exactly when the worker's budget is zero. -/
def distLoop (budget : Worker → ℕ) (range_end : ℕ) :
    List Worker → ℕ → Option (List WorkerRange × ℕ)
  | [], current => some ([], current)
  | w :: ws, current =>
    if range_end < current then some ([], current)
    else if current + budget w = 0 then none
    else
      let worker_end := min (current + budget w - 1) range_end
      if worker_end < current then none
      else
        let actual_range_size := worker_end - current + 1
        let range_size_u64 :=
          if actual_range_size ≤ 2 ^ 64 - 1 then actual_range_size else 2 ^ 64 - 1
        let wr : WorkerRange :=
          ⟨w.name, w.hashes_per_second, current, worker_end, range_size_u64,
            estTimeMinutes w.hashes_per_second range_size_u64⟩
        match distLoop budget range_end ws (worker_end + 1) with
        | none => none
        | some (rest, final) => some (wr :: rest, final)

/-- `distribute_range_to_workers` (src/lib.rs:28-91).  Checks for an empty
worker list, then evaluates `_total_range = range_end - range_start + 1`
(which panics when `range_start > range_end`), runs the per-worker loop, and
reports any remaining unassigned subrange. -/
def distributeRangeToWorkers (budget : Worker → ℕ) (workers : List Worker)
    (range_start range_end : ℕ) : DistResult :=
  if workers.isEmpty then .error "No workers provided"
  else if range_end < range_start then .panicked
  else
    match distLoop budget range_end workers range_start with
    | none => .panicked
    | some (ranges, final) =>
      .ok ranges (if final ≤ range_end then some (final, range_end) else none)

/-- The leftover range of a successful allocation, if any. -/
def leftoverOf : DistResult → Option (ℕ × ℕ)
  | .ok _ l => l
  | _ => none

/-- The budget a worker receives for a whole-number target time of `minutes`
minutes: `hashes_per_second * minutes * 60`.  For the magnitudes used in the
concrete theorems below (all intermediate values under 2 ^ 53) the source's
f64 product `hps as f64 * T * 60.0` followed by the `as u64` cast computes
exactly this value. -/
def budgetOfMinutes (minutes : ℕ) (w : Worker) : ℕ :=
  w.hashes_per_second * minutes * 60

/-- The tier arm of `calculate_walk_parameters` (src/lib.rs:258-294): picks
`(walk_iterations, walk_count, adapt_interval)` from one of five throughput
tiers.  The f64 products `hps as f64 * c` are exact for `hps * c < 2 ^ 53`,
which covers every tier bound and all realistic throughputs; they are modelled
by the exact natural-number products. -/
def tierParams (hashes_per_second : ℕ) : ℕ × ℕ × ℕ :=
  if hashes_per_second ≤ 10000 then
    (hashes_per_second * 60, max 2 (hashes_per_second / 5000),
      hashes_per_second * 60 / 10)
  else if hashes_per_second ≤ 50000 then
    (hashes_per_second * 30, max 4 (hashes_per_second / 10000),
      hashes_per_second * 30 / 20)
  else if hashes_per_second ≤ 200000 then
    (hashes_per_second * 15, max 6 (hashes_per_second / 25000),
      hashes_per_second * 15 / 30)
  else if hashes_per_second ≤ 500000 then
    (hashes_per_second * 10, max 8 (hashes_per_second / 50000),
      hashes_per_second * 10 / 50)
  else
    (hashes_per_second * 5, max 12 (hashes_per_second / 100000),
      hashes_per_second * 5 / 100)

/-- `calculate_walk_parameters` (src/lib.rs:256-302): the tier arm followed by
the final clamps `iterations.max(1000)`, `walks.max(2).min(32)` and
`adapt.max(100).min(iterations / 2)`. -/
def calculateWalkParameters (hashes_per_second : ℕ) : ℕ × ℕ × ℕ :=
  let t := tierParams hashes_per_second
  let walk_iterations := max t.1 1000
  (walk_iterations, min (max t.2.1 2) 32,
    min (max t.2.2 100) (walk_iterations / 2))

/-- The tier index a throughput falls into, following the match arms of
`calculate_walk_parameters`. -/
def tierOf (hashes_per_second : ℕ) : ℕ :=
  if hashes_per_second ≤ 10000 then 0
  else if hashes_per_second ≤ 50000 then 1
  else if hashes_per_second ≤ 200000 then 2
  else if hashes_per_second ≤ 500000 then 3
  else 4

/-- The number of parallel batches created by `search_range`
(src/main.rs:450-453): `(range_size / batch_size + 1u32).try_into()
.unwrap_or(usize::MAX)`, i.e. the `BigUint` quotient plus one, saturated at
`usize::MAX = 2 ^ 64 - 1`. -/
def batchCount (range_size batch_size : ℕ) : ℕ :=
  min (range_size / batch_size + 1) (2 ^ 64 - 1)

/-- The first key of batch `i` in `search_range` (src/main.rs:462):
`start + (batch_idx as u64) * batch_size`, the index product performed in
wrapping `u64` arithmetic before the `BigUint` addition. -/
def batchStart (start batch_size i : ℕ) : ℕ :=
  start + (i * batch_size) % 2 ^ 64

/-- The last key of batch `i` in `search_range` (src/main.rs:463):
`min(batch_start + batch_size - 1, end)`. -/
def batchEnd (start end_ batch_size i : ℕ) : ℕ :=
  min (batchStart start batch_size i + batch_size - 1) end_

/-- Abstract random source, standing for `rand::thread_rng()`; the walk draws
through these four interfaces only (`gen::<f64>()` yields a uniform value of
`[0,1)`, modelled as a rational; `gen_range(lo..hi)` yields a value of
`[lo, hi)`).  Injecting the source keeps the walk a pure function of it. -/
structure Rng (R : Type) where
  genF64 : R → ℚ × R
  genU64 : R → ℕ × R
  genU32 : R → ℕ × R
  genRange : ℕ → ℕ → R → ℕ × R

/-- A degenerate random source that always draws the least admissible value:
`gen` draws are 0 and `gen_range(lo..hi)` draws are `lo`. -/
def constRng : Rng Unit :=
  ⟨fun _ => (0, ()), fun _ => (0, ()), fun _ => (0, ()), fun lo _ _ => (lo, ())⟩

/-- The step-size candidate set `step_variants` of
`adaptive_random_walk_search` (src/random_walk.rs:39-42). -/
def stepVariants : List ℕ :=
  [1, 2, 3, 5, 8, 13, 21, 34, 55, 89, 144, 233, 377, 610, 987, 1597]

/-- Forward move of the walk (src/random_walk.rs:50):
`(position + step_size) % range_size`. -/
def moveForward (position step_size range_size : ℕ) : ℕ :=
  (position + step_size) % range_size

/-- Backward move of the walk (src/random_walk.rs:52-62).  Every `BigUint`
subtraction here is guarded so that the minuend dominates the subtrahend
(proved below), hence truncated `ℕ` subtraction coincides with the source's
exact big-integer subtraction. -/
def moveBackward (position step_size range_size : ℕ) : ℕ :=
  if step_size ≤ position then position - step_size
  else
    let step_mod := step_size % range_size
    if step_mod ≤ position then position - step_mod
    else range_size - (step_mod - position)

/-- One position move of the walk, forward on `fwd` (drawn with probability
0.6) and backward otherwise (src/random_walk.rs:46-63). -/
def walkMove (fwd : Bool) (position step_size range_size : ℕ) : ℕ :=
  if fwd then moveForward position step_size range_size
  else moveBackward position step_size range_size

/-- The private walk state of one `adaptive_random_walk_search` instance: the
rng, the ring position, the current step size, the visited-position set (the
`seen` hash set, as a list), and the two adaptation counters. -/
structure WalkSt (R : Type) where
  r : R
  position : ℕ
  step_size : ℕ
  seen : List ℕ
  iterations_since_adapt : ℕ
  total_adaptations : ℕ

/-- `adapt_random_walk` (src/random_walk.rs:157-173): draw a base step from
the variants, scale it by a factor of `[1,20)`, and with probability 0.1
additionally scale by a factor of `[100,1000)`. -/
def adaptRandomWalk {R : Type} (rng : Rng R) (r0 : R) : ℕ × R :=
  let (idx, r1) := rng.genRange 0 stepVariants.length r0
  let (random_factor, r2) := rng.genRange 1 20 r1
  let step := stepVariants.getD idx 0 * random_factor
  let (p, r3) := rng.genF64 r2
  if p < mkRat 1 10 then
    let (m, r4) := rng.genRange 100 1000 r3
    (step * m, r4)
  else (step, r3)

/-- The adaptive-step block of the walk (src/random_walk.rs:104-119), run when
`iterations_since_adapt` has reached `adapt_interval`: re-randomize the step,
clear the visited set on every fourth adaptation, and with probability 0.3
jitter the position by a random `u32` offset. -/
def adaptBlock {R : Type} (rng : Rng R) (range_size adapt_interval : ℕ)
    (st : WalkSt R) : WalkSt R :=
  if adapt_interval ≤ st.iterations_since_adapt then
    let (step1, r1) := adaptRandomWalk rng st.r
    let seen1 := if st.total_adaptations % 4 = 0 then [] else st.seen
    let (p, r2) := rng.genF64 r1
    if p < mkRat 3 10 then
      let (j, r3) := rng.genU32 r2
      ⟨r3, (st.position + j) % range_size, step1, seen1, 0,
        st.total_adaptations + 1⟩
    else ⟨r2, st.position, step1, seen1, 0, st.total_adaptations + 1⟩
  else st

/-- The progressive-exploration block of the walk (src/random_walk.rs:121-128):
`if i > 0 && i % (max_iter / 8) == 0`, then with probability 0.25 fully reseed
position, step and visited set.  The Rust remainder with a zero right operand
panics, so `max_iter / 8 = 0` (that is, `max_iter < 8`) with `i > 0` yields
`none`. -/
def reseedBlock {R : Type} (rng : Rng R) (range_size max_iter i : ℕ)
    (st : WalkSt R) : Option (WalkSt R) :=
  if 0 < i then
    if max_iter / 8 = 0 then none
    else if i % (max_iter / 8) = 0 then
      let (p, r1) := rng.genF64 st.r
      if p < mkRat 1 4 then
        let (u, r2) := rng.genU64 r1
        let (idx, r3) := rng.genRange 0 stepVariants.length r2
        some ⟨r3, u % range_size, stepVariants.getD idx 0, [],
          st.iterations_since_adapt, st.total_adaptations⟩
      else
        some ⟨r1, st.position, st.step_size, st.seen,
          st.iterations_since_adapt, st.total_adaptations⟩
    else some st
  else some st

/-- The dynamic step-growth block of the walk (src/random_walk.rs:131-140):
every 5000 iterations (for `i > 0`), with probability 0.4 multiply the step by
a factor of `[2,10)` modulo `range_size`, flooring a zero result to 1. -/
def stepGrowBlock {R : Type} (rng : Rng R) (range_size i : ℕ)
    (st : WalkSt R) : WalkSt R :=
  if i % 5000 = 0 then
    if 0 < i then
      let (p, r1) := rng.genF64 st.r
      if p < mkRat 2 5 then
        let (m, r2) := rng.genRange 2 10 r1
        let step1 := st.step_size * m % range_size
        ⟨r2, st.position, if step1 = 0 then 1 else step1, st.seen,
          st.iterations_since_adapt, st.total_adaptations⟩
      else ⟨r1, st.position, st.step_size, st.seen,
        st.iterations_since_adapt, st.total_adaptations⟩
    else st
  else st

/-- The oracle test of one iteration (src/random_walk.rs:80-87): derive the
addresses of the candidate key (a failed derivation is skipped) and return the
first derived address contained in the target set, if any. -/
def oracleHit (derive : ℕ → Option (List String)) (targets : List String)
    (key : ℕ) : Option String :=
  match derive key with
  | some addrs => addrs.find? (fun a => targets.contains a)
  | none => none

/-- The iteration loop of `adaptive_random_walk_search`
(src/random_walk.rs:44-141), peeled by remaining iteration count; the loop
variable is `i = max_iter - remaining`.  Per iteration: draw the direction
(forward with probability 0.6), move, detect a cycle on the visited set (on a
cycle: reseed position and step, clear the set, count an adaptation, and
continue), otherwise mark the position visited, test the oracle and return on
a match, then run the adaptive-step, progressive-exploration and step-growth
blocks.  The progress counters of the source only feed the progress bar and
the shared throughput counter and never influence the result, so they are not
carried.  Result `none` is a panic, `some none` is `Ok(None)`, and
`some (some (key, addr))` is `Ok(Some((key, addr)))`. -/
def walkLoop {R : Type} (rng : Rng R) (derive : ℕ → Option (List String))
    (start_range range_size : ℕ) (targets : List String)
    (max_iter adapt_interval : ℕ) :
    ℕ → WalkSt R → Option (Option (String × String))
  | 0, _ => some none
  | remaining + 1, st =>
    let i := max_iter - (remaining + 1)
    let (p_dir, r1) := rng.genF64 st.r
    let pos1 := walkMove (p_dir < mkRat 3 5) st.position st.step_size range_size
    let private_key := start_range + pos1
    if pos1 ∈ st.seen then
      let (u, r2) := rng.genU64 r1
      let (idx, r3) := rng.genRange 0 stepVariants.length r2
      walkLoop rng derive start_range range_size targets max_iter
        adapt_interval remaining
        ⟨r3, u % range_size, stepVariants.getD idx 0, [], 0,
          st.total_adaptations + 1⟩
    else
      match oracleHit derive targets private_key with
      | some addr => some (some (format064x private_key, addr))
      | none =>
        let st1 : WalkSt R :=
          ⟨r1, pos1, st.step_size, pos1 :: st.seen,
            st.iterations_since_adapt + 1, st.total_adaptations⟩
        let st2 := adaptBlock rng range_size adapt_interval st1
        match reseedBlock rng range_size max_iter i st2 with
        | none => none
        | some st3 =>
          walkLoop rng derive start_range range_size targets max_iter
            adapt_interval remaining (stepGrowBlock rng range_size i st3)

/-- `adaptive_random_walk_search` (src/random_walk.rs:13-154).  Computes
`range_size = end_range - start_range + 1` (the `BigUint` subtraction panics
when `end_range < start_range`), short-circuits on a zero range size, draws
the initial step of `[1,100)` and the initial position `gen::<u64>() %
range_size`, and runs the iteration loop. -/
def adaptiveRandomWalkSearch {R : Type} (rng : Rng R)
    (derive : ℕ → Option (List String)) (start_range end_range : ℕ)
    (targets : List String) (max_iter adapt_interval : ℕ) (r0 : R) :
    Option (Option (String × String)) :=
  if end_range < start_range then none
  else
    let range_size := end_range - start_range + 1
    if range_size = 0 then some none
    else
      let (s0, r1) := rng.genRange 1 100 r0
      let (u0, r2) := rng.genU64 r1
      walkLoop rng derive start_range range_size targets max_iter
        adapt_interval max_iter ⟨r2, u0 % range_size, s0, [], 0, 0⟩

/-- `coversExactly s pieces f` states that `pieces` is a gapless, overlap-free
decomposition of the key interval `[s, f)` into consecutive inclusive
subranges: the first piece starts at `s`, each piece is non-empty, each next
piece starts one past the previous piece's end, and the last piece ends at
`f - 1`. -/
def coversExactly : ℕ → List (ℕ × ℕ) → ℕ → Prop
  | s, [], f => f = s
  | s, p :: rest, f => p.1 = s ∧ s ≤ p.2 ∧ coversExactly (p.2 + 1) rest f

/-- The leftover range as a (possibly empty) list of pieces. -/
def leftoverPieces : Option (ℕ × ℕ) → List (ℕ × ℕ)
  | none => []
  | some p => [p]

/-- C6: invariant of the adaptive random walk.  For every ring of size
`range_size ≥ 1`, any position in `[0, range_size)` and any step size, the
moved position (forward or backward) again lies in `[0, range_size)`, and the
one unguarded big-integer subtraction of the backward branch
(`range_size - (step_mod - position)`) has its subtrahend bounded by
`range_size`, so no unsigned subtraction can underflow. -/
theorem walk_move_stays_in_range (position step_size range_size : ℕ)
    (hrs : 0 < range_size) (hpos : position < range_size) :
    (∀ fwd : Bool, walkMove fwd position step_size range_size < range_size) ∧
    step_size % range_size - position ≤ range_size := by
  have h1 : step_size % range_size < range_size := Nat.mod_lt _ hrs
  refine ⟨fun fwd => ?_, by omega⟩
  cases fwd with
  | true => exact Nat.mod_lt _ hrs
  | false =>
    simp only [walkMove, moveBackward, Bool.false_eq_true, if_false]
    split
    · omega
    · split
      · omega
      · omega

/-- C6 witness: the move invariant evaluated at position 3, step 7 on a ring
of size 5. -/
theorem walk_move_stays_in_range_witness :
    (∀ fwd : Bool, walkMove fwd 3 7 5 < 5) ∧ 7 % 5 - 3 ≤ 5 :=
  walk_move_stays_in_range 3 7 5 (by decide) (by decide)

/-- C1 counterexample, two divergences at concrete inputs.  First: for the
range `[0, 9]` (size 10) and batch size 5 the code creates
`10 / 5 + 1 = 3` parallel batches, not `ceil(10 / 5) = 2` as the claim
states (the extra batch is empty).  Second: for the range `[0, 2 ^ 64]` with
batch size `2 ^ 63` the `u64` product `(batch_idx as u64) * batch_size`
wraps, so the claimed partition itself fails: batch 2 starts at
`(2 * 2 ^ 63) % 2 ^ 64 = 0` and spans exactly the same keys as batch 0
(an overlap, and batch starts are not increasing), while the in-range key
`2 ^ 64` exceeds every batch's end (a gap), so the union of the batches is
not the range. -/
theorem search_range_not_exact_partition :
    (batchCount (9 - 0 + 1) 5 = 3 ∧ (9 - 0 + 1 + 5 - 1) / 5 = 2) ∧
    ((2 : ℕ) < batchCount (2 ^ 64 - 0 + 1) (2 ^ 63) ∧
     batchStart 0 (2 ^ 63) 2 = batchStart 0 (2 ^ 63) 0 ∧
     batchEnd 0 (2 ^ 64) (2 ^ 63) 2 = batchEnd 0 (2 ^ 64) (2 ^ 63) 0 ∧
     (∀ i, i < batchCount (2 ^ 64 - 0 + 1) (2 ^ 63) →
       batchEnd 0 (2 ^ 64) (2 ^ 63) i < 2 ^ 64)) := by decide

/-- C1 (amended): for every range `[start, end]` with `start ≤ end` and
positive batch size `b`, restricted to ranges with
`end - start + 2 < 2 ^ 64` — beyond which the wrapping `u64` index product
`(batch_idx as u64) * batch_size` makes the partition genuinely fail, as the
counterexample's second part exhibits — `search_range` creates
exactly `(end - start + 1) / b + 1` batches — that is `ceil(size / b)` when
`b` does not divide the range size and `ceil(size / b) + 1` when it does, the
final batch then starting beyond `end` and hence empty.  Batch `i` spans
`[start + i·b, min(start + i·b + b - 1, end)]`, consecutive batches are
contiguous, and every key of the range lies in exactly one batch. -/
theorem search_range_partition (start end_ b : ℕ) (hse : start ≤ end_)
    (hb : 0 < b) (hsz : end_ - start + 2 < 2 ^ 64) :
    batchCount (end_ - start + 1) b = (end_ - start + 1) / b + 1 ∧
    (∀ i, i < batchCount (end_ - start + 1) b →
      batchStart start b i = start + i * b ∧
      batchEnd start end_ b i = min (start + i * b + b - 1) end_) ∧
    (∀ i, i + 1 < batchCount (end_ - start + 1) b →
      batchStart start b (i + 1) = batchStart start b i + b) ∧
    (∀ k, start ≤ k → k ≤ end_ →
      ∃! i, i < batchCount (end_ - start + 1) b ∧
        batchStart start b i ≤ k ∧ k ≤ batchEnd start end_ b i) ∧
    (¬ b ∣ (end_ - start + 1) →
      batchCount (end_ - start + 1) b = (end_ - start + 1 + b - 1) / b) ∧
    (b ∣ (end_ - start + 1) →
      batchCount (end_ - start + 1) b = (end_ - start + 1 + b - 1) / b + 1 ∧
      end_ < batchStart start b ((end_ - start + 1) / b)) := by
  set rs := end_ - start + 1 with hrsdef
  have hrs1 : 1 ≤ rs := by omega
  have hrsbound : rs ≤ 2 ^ 64 - 2 := by omega
  have hqb : rs / b ≤ rs := Nat.div_le_self _ _
  have hcount : batchCount rs b = rs / b + 1 := by
    have h5 : rs / b + 1 ≤ 2 ^ 64 - 1 := by omega
    simpa [batchCount] using Nat.min_eq_left h5
  have hmulbound : ∀ i, i ≤ rs / b → i * b < 2 ^ 64 := by
    intro i hi
    have h2 : i * b ≤ rs / b * b := Nat.mul_le_mul_right _ hi
    have h3 : rs / b * b ≤ rs := Nat.div_mul_le_self _ _
    have h4 : rs < 2 ^ 64 := by omega
    exact lt_of_le_of_lt (le_trans h2 h3) h4
  have hbs : ∀ i, i ≤ rs / b → batchStart start b i = start + i * b := by
    intro i hi
    have hm : i * b % 2 ^ 64 = i * b := Nat.mod_eq_of_lt (hmulbound i hi)
    unfold batchStart
    rw [hm]
  refine ⟨hcount, ?_, ?_, ?_, ?_, ?_⟩
  · intro i hi
    rw [hcount] at hi
    exact ⟨hbs i (by omega), by rw [batchEnd, hbs i (by omega)]⟩
  · intro i hi
    rw [hcount] at hi
    rw [hbs i (by omega), hbs (i + 1) (by omega)]
    ring
  · intro k hk1 hk2
    have hkrs : k - start < rs := by omega
    have hile : (k - start) / b ≤ rs / b := Nat.div_le_div_right (by omega)
    have hdm : (k - start) / b * b + (k - start) % b = k - start := by
      rw [Nat.mul_comm]
      exact Nat.div_add_mod _ _
    have hml : (k - start) % b < b := Nat.mod_lt _ hb
    refine ⟨(k - start) / b, ⟨?_, ?_, ?_⟩, ?_⟩
    · rw [hcount]
      omega
    · rw [hbs _ hile]
      omega
    · rw [batchEnd, hbs _ hile]
      refine le_min (by omega) hk2
    · intro j hj
      obtain ⟨hj1, hj2, hj3⟩ := hj
      rw [hcount] at hj1
      rw [hbs j (by omega)] at hj2
      rw [batchEnd, hbs j (by omega)] at hj3
      have hj4 : k ≤ start + j * b + b - 1 := (le_min_iff.mp hj3).1
      have hlow : j * b ≤ k - start := by omega
      have hexp : (j + 1) * b = j * b + b := by ring
      have hhigh : k - start < (j + 1) * b := by omega
      have hdiv := Nat.div_eq_of_lt_le hlow hhigh
      omega
  · intro hnd
    rw [hcount]
    obtain ⟨q, r, hr, hqr⟩ : ∃ q r, r < b ∧ rs = b * q + r :=
      ⟨rs / b, rs % b, Nat.mod_lt _ hb, (Nat.div_add_mod rs b).symm⟩
    have hr0 : r ≠ 0 := fun h => hnd ⟨q, by omega⟩
    have h1 : rs / b = q := by
      rw [hqr, Nat.mul_add_div hb]
      have hr1 : r / b = 0 := Nat.div_eq_of_lt hr
      omega
    have hexp : b * (q + 1) = b * q + b := by ring
    have h2 : rs + b - 1 = b * (q + 1) + (r - 1) := by omega
    have h3 : (rs + b - 1) / b = q + 1 := by
      rw [h2, Nat.mul_add_div hb]
      have hr1 : (r - 1) / b = 0 := Nat.div_eq_of_lt (by omega)
      omega
    omega
  · intro hd
    obtain ⟨q, hq⟩ := hd
    have hq1 : 1 ≤ q := by
      rcases Nat.eq_zero_or_pos q with h | h
      · subst h
        omega
      · exact h
    have h1 : rs / b = q := by rw [hq, Nat.mul_div_cancel_left _ hb]
    have h2 : rs + b - 1 = b * q + (b - 1) := by omega
    have h3 : (rs + b - 1) / b = q := by
      rw [h2, Nat.mul_add_div hb]
      have hb1 : (b - 1) / b = 0 := Nat.div_eq_of_lt (by omega)
      omega
    refine ⟨by omega, ?_⟩
    rw [hbs _ le_rfl, h1]
    have h4 : q * b = rs := by
      rw [Nat.mul_comm]
      omega
    omega

/-- C1 witness: the batch partition instantiated on the range `[0, 9]` with
batch size 5, where the batch size divides the range size. -/
theorem search_range_partition_witness :
    batchCount (9 - 0 + 1) 5 = (9 - 0 + 1) / 5 + 1 ∧
    (∀ i, i < batchCount (9 - 0 + 1) 5 →
      batchStart 0 5 i = 0 + i * 5 ∧
      batchEnd 0 9 5 i = min (0 + i * 5 + 5 - 1) 9) ∧
    (∀ i, i + 1 < batchCount (9 - 0 + 1) 5 →
      batchStart 0 5 (i + 1) = batchStart 0 5 i + 5) ∧
    (∀ k, 0 ≤ k → k ≤ 9 →
      ∃! i, i < batchCount (9 - 0 + 1) 5 ∧
        batchStart 0 5 i ≤ k ∧ k ≤ batchEnd 0 9 5 i) ∧
    (¬ 5 ∣ (9 - 0 + 1) →
      batchCount (9 - 0 + 1) 5 = (9 - 0 + 1 + 5 - 1) / 5) ∧
    (5 ∣ (9 - 0 + 1) →
      batchCount (9 - 0 + 1) 5 = (9 - 0 + 1 + 5 - 1) / 5 + 1 ∧
      9 < batchStart 0 5 ((9 - 0 + 1) / 5)) :=
  search_range_partition 0 9 5 (by decide) (by decide) (by decide)

/-- Helper: within one throughput tier, the tier arm's iteration count and
walk count are non-decreasing in the throughput. -/
theorem tierParams_mono (h1 h2 : ℕ) (ht : tierOf h1 = tierOf h2)
    (hle : h1 ≤ h2) :
    (tierParams h1).1 ≤ (tierParams h2).1 ∧
    (tierParams h1).2.1 ≤ (tierParams h2).2.1 := by
  unfold tierOf at ht
  unfold tierParams
  split_ifs at ht ⊢ <;> first
  | omega
  | exact ⟨by dsimp only; gcongr, by dsimp only; gcongr⟩

/-- Helper: the planner's clamps force `iterations ≥ 1000`,
`2 ≤ walks ≤ 32` and `100 ≤ adapt_interval ≤ iterations / 2` for every
throughput. -/
theorem calculateWalkParameters_bounds (h : ℕ) :
    1000 ≤ (calculateWalkParameters h).1 ∧
    2 ≤ (calculateWalkParameters h).2.1 ∧
    (calculateWalkParameters h).2.1 ≤ 32 ∧
    100 ≤ (calculateWalkParameters h).2.2 ∧
    (calculateWalkParameters h).2.2 ≤ (calculateWalkParameters h).1 / 2 := by
  dsimp only [calculateWalkParameters]
  refine ⟨le_max_right _ _,
    le_min (le_trans (by norm_num) (le_max_right _ _)) (by norm_num),
    min_le_right _ _, ?_, min_le_right _ _⟩
  refine le_min (le_max_right _ _) ?_
  have h500 : 1000 / 2 ≤ max (tierParams h).1 1000 / 2 :=
    Nat.div_le_div_right (le_max_right _ _)
  omega

/-- C8 counterexample: throughputs 1000 and 10000 lie in the same tier, and
the lower one yields strictly fewer iterations (60000 against 600000), so
"lower throughput never yields fewer iterations than higher throughput" fails
on the code: within a tier, iterations grow with throughput. -/
theorem planner_lower_throughput_fewer_iterations :
    tierOf 1000 = tierOf 10000 ∧ (1000 : ℕ) ≤ 10000 ∧
    (calculateWalkParameters 1000).1 < (calculateWalkParameters 10000).1 := by
  refine ⟨rfl, by norm_num, ?_⟩
  show (60000 : ℕ) < 600000
  norm_num

/-- C8 (amended): within a tier, lower throughput never yields MORE
iterations or more walks than higher throughput (iterations and walk count
are non-decreasing in throughput within each tier), and for every throughput
the outputs satisfy `iterations ≥ 1000`, `2 ≤ walk_count ≤ 32` and
`100 ≤ adapt_interval ≤ iterations / 2`. -/
theorem planner_monotone_and_bounded :
    (∀ h1 h2 : ℕ, tierOf h1 = tierOf h2 → h1 ≤ h2 →
      (calculateWalkParameters h1).1 ≤ (calculateWalkParameters h2).1 ∧
      (calculateWalkParameters h1).2.1 ≤ (calculateWalkParameters h2).2.1) ∧
    (∀ h : ℕ, 1000 ≤ (calculateWalkParameters h).1 ∧
      2 ≤ (calculateWalkParameters h).2.1 ∧
      (calculateWalkParameters h).2.1 ≤ 32 ∧
      100 ≤ (calculateWalkParameters h).2.2 ∧
      (calculateWalkParameters h).2.2 ≤ (calculateWalkParameters h).1 / 2) := by
  constructor
  · intro h1 h2 ht hle
    obtain ⟨hi, hw⟩ := tierParams_mono h1 h2 ht hle
    dsimp only [calculateWalkParameters]
    exact ⟨by gcongr, by gcongr⟩
  · exact calculateWalkParameters_bounds

/-- C8 witness: the monotonicity applied to throughputs 5000 ≤ 9000 of the
first tier, and the bounds applied to throughput 123456. -/
theorem planner_monotone_and_bounded_witness :
    ((calculateWalkParameters 5000).1 ≤ (calculateWalkParameters 9000).1 ∧
     (calculateWalkParameters 5000).2.1 ≤ (calculateWalkParameters 9000).2.1) ∧
    (1000 ≤ (calculateWalkParameters 123456).1 ∧
     2 ≤ (calculateWalkParameters 123456).2.1 ∧
     (calculateWalkParameters 123456).2.1 ≤ 32 ∧
     100 ≤ (calculateWalkParameters 123456).2.2 ∧
     (calculateWalkParameters 123456).2.2 ≤ (calculateWalkParameters 123456).1 / 2) :=
  ⟨planner_monotone_and_bounded.1 5000 9000 (by decide) (by decide),
   planner_monotone_and_bounded.2 123456⟩

/-- C3: for iteration budget 2 (a budget the claim's "any budget" covers) the
walk's progressive-exploration check computes `1 % (2 / 8) = 1 % 0`, which
panics, on the range `[1, 100]` with an empty target set — instead of
returning "no match"; with budget 8 (so `max_iter / 8 ≥ 1`) the same
configuration terminates normally with "no match" within the budget.  The
concrete random source is irrelevant to the panic: any draws that avoid a
cycle at iteration 1 reach the same division by zero. -/
theorem walk_small_budget_panics :
    adaptiveRandomWalkSearch constRng (fun _ => none) 1 100 [] 2 100 () =
      none ∧
    adaptiveRandomWalkSearch constRng (fun _ => none) 1 100 [] 8 100 () =
      some none := by decide

/-- C5: a throughput of exactly zero is not rejected or flagged by either
operation: the planner silently returns the clamped defaults
`(1000, 2, 100)` through its normal return type (which has no error or flag
channel at all), and the allocator — whose budget for a zero-throughput
worker is `(0 as f64 * T * 60.0) as u64 = 0` — panics on the `BigUint`
subtraction `worker_end - current_position` instead of rejecting the
worker. -/
theorem zero_throughput_not_rejected :
    calculateWalkParameters 0 = (1000, 2, 100) ∧
    distributeRangeToWorkers (fun _ => 0) [⟨"Zero Worker", 0⟩] 1 100 =
      .panicked := by decide

/-- C4 counterexample: on an invalid range (`start = 2 > 1 = end`) the walk
panics in the `BigUint` subtraction `end_range - start_range` and the
allocator panics in `range_end - range_start`; neither rejects the
configuration with a typed error. -/
theorem invalid_range_not_typed_error :
    adaptiveRandomWalkSearch constRng (fun _ => none) 2 1 [] 5 100 () =
      none ∧
    distributeRangeToWorkers (fun _ => 1) [⟨"Worker A", 1⟩] 2 1 =
      .panicked := by decide

/-- C9 counterexample: for the three workers at 100000/50000/25000 keys per
second on `[0x8000000000, 0xffffffffff]` with a 10-minute target, the
leftover range is `[0x8006420c00, 0xffffffffff]`, whose size 549650813888
(≈ 5.4965 × 10^11) is more than twice the 1.0986 × 10^11 the claim states, so
the claimed leftover magnitude is wrong. -/
theorem allocation_example_leftover_magnitude :
    leftoverOf (distributeRangeToWorkers (budgetOfMinutes 10)
      [⟨"Fast Worker", 100000⟩, ⟨"Medium Worker", 50000⟩,
       ⟨"Slow Worker", 25000⟩] 549755813888 1099511627775) =
      some (549860813888, 1099511627775) ∧
    2 * 109860000000 < 1099511627775 - 549860813888 + 1 := by decide

/-- C9 (amended): three workers at 100000/50000/25000 keys per second on the
range `0x8000000000 = 549755813888` to `0xffffffffff = 1099511627775` with a
10-minute target produce exactly three assignments of 60000000, 30000000 and
15000000 keys in worker order (each with an estimated time of 10 minutes) and
a non-empty leftover of exactly 549650813888 ≈ 5.4965 × 10^11 keys.  The
budgets `hps * 10 * 60` equal the source's f64 products exactly at these
magnitudes. -/
theorem allocation_example_two :
    distributeRangeToWorkers (budgetOfMinutes 10)
      [⟨"Fast Worker", 100000⟩, ⟨"Medium Worker", 50000⟩,
       ⟨"Slow Worker", 25000⟩] 549755813888 1099511627775 =
    DistResult.ok
      [⟨"Fast Worker", 100000, 549755813888, 549815813887, 60000000, 10⟩,
       ⟨"Medium Worker", 50000, 549815813888, 549845813887, 30000000, 10⟩,
       ⟨"Slow Worker", 25000, 549845813888, 549860813887, 15000000, 10⟩]
      (some (549860813888, 1099511627775)) ∧
    1099511627775 - 549860813888 + 1 = 549650813888 := by decide

/-- C4 (amended): an invalid Range (`start > end`) makes both the adaptive
random-walk searcher and the allocator terminate abnormally — a `BigUint`
subtraction panic while computing the range size — before any search or
allocation work begins, and a non-positive target time (whose saturating
f64-to-u64 budget cast yields 0 keys for every worker) makes the allocator
panic at its first worker; neither operation produces a typed configuration
error (no such error exists in the code). -/
theorem invalid_config_panics_before_work :
    (∀ (R : Type) (rng : Rng R) (derive : ℕ → Option (List String))
        (s e : ℕ) (targets : List String) (mi ai : ℕ) (r0 : R), e < s →
      adaptiveRandomWalkSearch rng derive s e targets mi ai r0 = none) ∧
    (∀ (budget : Worker → ℕ) (workers : List Worker) (s e : ℕ),
        workers ≠ [] → e < s →
      distributeRangeToWorkers budget workers s e = .panicked) ∧
    (∀ (workers : List Worker) (s e : ℕ), workers ≠ [] → s ≤ e →
      distributeRangeToWorkers (fun _ => 0) workers s e = .panicked) := by
  refine ⟨?_, ?_, ?_⟩
  · intro R rng derive s e targets mi ai r0 h
    simp [adaptiveRandomWalkSearch, h]
  · intro budget workers s e hne h
    cases workers with
    | nil => exact absurd rfl hne
    | cons w ws => simp [distributeRangeToWorkers, h]
  · intro workers s e hne h
    cases workers with
    | nil => exact absurd rfl hne
    | cons w ws =>
      have hne2 : ¬ e < s := not_lt.mpr h
      have hloop : distLoop (fun _ => 0) e (w :: ws) s = none := by
        unfold distLoop
        rcases Nat.eq_zero_or_pos s with hs | hs
        · subst hs
          simp [hne2]
        · have hmin : min (s + 0 - 1) e = s - 1 := min_eq_left (by omega)
          simp [hne2, hmin]
          omega
      simp [distributeRangeToWorkers, hne2, hloop]

/-- C4 witness: the panics evaluated on the invalid range `[3, 2]` for both
operations and on zero budgets for the range `[0, 9]`. -/
theorem invalid_config_panics_before_work_witness :
    adaptiveRandomWalkSearch constRng (fun _ => none) 3 2 [] 10 100 () =
      none ∧
    distributeRangeToWorkers (fun _ => 5) [⟨"Worker B", 7⟩] 3 2 =
      .panicked ∧
    distributeRangeToWorkers (fun _ => 0) [⟨"Worker B", 7⟩] 0 9 =
      .panicked :=
  ⟨invalid_config_panics_before_work.1 Unit constRng (fun _ => none) 3 2 []
      10 100 () (by decide),
   invalid_config_panics_before_work.2.1 (fun _ => 5) [⟨"Worker B", 7⟩] 3 2
      (List.cons_ne_nil _ _) (by decide),
   invalid_config_panics_before_work.2.2 [⟨"Worker B", 7⟩] 0 9
      (List.cons_ne_nil _ _) (by decide)⟩

/-- C10: when a worker's budget exceeds `u64::MAX` keys and the range is
large enough that the assigned subrange holds more than `2 ^ 64 - 1` keys,
the reported `range_size` field saturates to `u64::MAX = 2 ^ 64 - 1` while
the boundary fields hold the exact cursor values (`start_val = s`,
`end_val = min (s + b - 1) e`, from which the hex fields render), and
`estimated_time_minutes` is computed from the capped value, not the true
subrange size (final conjunct: the true size exceeds the cap).  Note that a
budget produced by the source's saturating f64-to-u64 cast never exceeds
`u64::MAX`, so on budgets reachable through `distribute_range_to_workers`'s
own cast this saturation branch is dead code; the theorem exercises the
branch as written. -/
theorem oversized_assignment_saturates (w : Worker) (b s e : ℕ)
    (hse : s ≤ e) (hb : 2 ^ 64 - 1 < b) (hrs : 2 ^ 64 - 1 < e - s + 1) :
    distributeRangeToWorkers (fun _ => b) [w] s e =
      DistResult.ok
        [⟨w.name, w.hashes_per_second, s, min (s + b - 1) e, 2 ^ 64 - 1,
          estTimeMinutes w.hashes_per_second (2 ^ 64 - 1)⟩]
        (if min (s + b - 1) e + 1 ≤ e then some (min (s + b - 1) e + 1, e)
         else none) ∧
    2 ^ 64 - 1 < min (s + b - 1) e - s + 1 := by
  have hne2 : ¬ e < s := not_lt.mpr hse
  have hwe : s ≤ min (s + b - 1) e := le_min (by omega) hse
  have hsz : 2 ^ 64 - 1 < min (s + b - 1) e - s + 1 := by
    rcases le_or_lt (s + b - 1) e with hc | hc
    · rw [min_eq_left hc]
      omega
    · rw [min_eq_right (le_of_lt hc)]
      omega
  refine ⟨?_, hsz⟩
  have hloop : distLoop (fun _ => b) e [w] s =
      some ([⟨w.name, w.hashes_per_second, s, min (s + b - 1) e, 2 ^ 64 - 1,
        estTimeMinutes w.hashes_per_second (2 ^ 64 - 1)⟩],
        min (s + b - 1) e + 1) := by
    have hnz : ¬ s + b = 0 := by omega
    have hwe2 : ¬ min (s + b - 1) e < s := not_lt.mpr hwe
    have hcap : ¬ (min (s + b - 1) e - s + 1 ≤ 2 ^ 64 - 1) := not_le.mpr hsz
    simp only [distLoop]
    rw [if_neg hne2, if_neg hnz, if_neg hwe2, if_neg hcap]
  simp [distributeRangeToWorkers, hne2, hloop]

/-- C10 witness: a worker with a `2 ^ 64`-key budget on the range
`[0, 2 ^ 70]` receives an assignment whose true size `2 ^ 64` exceeds the
saturated `range_size` report of `2 ^ 64 - 1`. -/
theorem oversized_assignment_saturates_witness :
    distributeRangeToWorkers (fun _ => 2 ^ 64) [⟨"Big Worker", 100000⟩] 0
      (2 ^ 70) =
      DistResult.ok
        [⟨"Big Worker", 100000, 0, min (0 + 2 ^ 64 - 1) (2 ^ 70),
          2 ^ 64 - 1, estTimeMinutes 100000 (2 ^ 64 - 1)⟩]
        (if min (0 + 2 ^ 64 - 1) (2 ^ 70) + 1 ≤ 2 ^ 70
         then some (min (0 + 2 ^ 64 - 1) (2 ^ 70) + 1, 2 ^ 70) else none) ∧
    2 ^ 64 - 1 < min (0 + 2 ^ 64 - 1) (2 ^ 70) - 0 + 1 :=
  oversized_assignment_saturates ⟨"Big Worker", 100000⟩ (2 ^ 64) 0 (2 ^ 70)
    (by decide) (by decide) (by decide)

/-- C2 counterexample: a worker with positive throughput whose computed key
budget `(hps as f64 * T * 60.0) as u64` is 0 — which a positive but small
target time produces, e.g. throughput 1 with `T = 0.0001` gives
`floor(0.006) = 0` — makes the allocator panic in the `BigUint` subtraction
`worker_end - current_position` instead of emitting any partition, so the
claim does not hold for every positive target time. -/
theorem allocator_zero_budget_panics :
    distributeRangeToWorkers (fun _ => 0) [⟨"Worker A", 1⟩] 1 10 =
      .panicked := by decide

/-- Helper: gluing two exact covers at their meeting point. -/
theorem coversExactly_append (l1 l2 : List (ℕ × ℕ)) (s m f : ℕ)
    (h1 : coversExactly s l1 m) (h2 : coversExactly m l2 f) :
    coversExactly s (l1 ++ l2) f := by
  induction l1 generalizing s with
  | nil =>
    simp only [coversExactly] at h1
    subst h1
    simpa using h2
  | cons p rest ih =>
    obtain ⟨hp1, hp2, hp3⟩ := h1
    exact ⟨hp1, hp2, ih _ hp3⟩

/-- Helper: the allocator loop on a worker whose budget does not panic. -/
theorem distLoop_cons (budget : Worker → ℕ) (e : ℕ) (w : Worker)
    (ws : List Worker) (current : ℕ) (h1 : ¬ e < current)
    (h2 : ¬ current + budget w = 0)
    (h3 : ¬ min (current + budget w - 1) e < current) :
    distLoop budget e (w :: ws) current =
      match distLoop budget e ws (min (current + budget w - 1) e + 1) with
      | none => none
      | some (rest, final) =>
        some (⟨w.name, w.hashes_per_second, current,
          min (current + budget w - 1) e,
          if min (current + budget w - 1) e - current + 1 ≤ 2 ^ 64 - 1
          then min (current + budget w - 1) e - current + 1 else 2 ^ 64 - 1,
          estTimeMinutes w.hashes_per_second
            (if min (current + budget w - 1) e - current + 1 ≤ 2 ^ 64 - 1
             then min (current + budget w - 1) e - current + 1
             else 2 ^ 64 - 1)⟩ :: rest, final) := by
  simp only [distLoop]
  rw [if_neg h1, if_neg h2, if_neg h3]

/-- Helper: the allocator loop with positive budgets produces a gapless,
contiguous prefix of assignments from the cursor, the resulting list names a
prefix of the worker list in order, and the final cursor never passes one
beyond the range end. -/
theorem distLoop_spec (budget : Worker → ℕ) (e : ℕ) (ws : List Worker) :
    ∀ current, current ≤ e + 1 → (∀ w ∈ ws, 1 ≤ budget w) →
    ∃ rs final, distLoop budget e ws current = some (rs, final) ∧
      current ≤ final ∧ final ≤ e + 1 ∧
      coversExactly current (rs.map fun wr => (wr.start_val, wr.end_val))
        final ∧
      rs.map (fun wr => wr.worker_name) =
        (ws.map (fun w => w.name)).take rs.length ∧
      (ws ≠ [] → current ≤ e → rs ≠ []) := by
  induction ws with
  | nil =>
    intro current hc hb
    exact ⟨[], current, rfl, le_rfl, hc, rfl, rfl, fun h _ => absurd rfl h⟩
  | cons w ws ih =>
    intro current hc hb
    by_cases hec : e < current
    · refine ⟨[], current, ?_, le_rfl, hc, rfl, rfl,
        fun _ hce => absurd hec (not_lt.mpr hce)⟩
      unfold distLoop
      rw [if_pos hec]
    · push_neg at hec
      have hbw : 1 ≤ budget w := hb w (List.mem_cons_self _ _)
      have hnz : ¬ (current + budget w = 0) := by omega
      have hwe1 : current ≤ min (current + budget w - 1) e :=
        le_min (by omega) hec
      have hwe2 : min (current + budget w - 1) e ≤ e := min_le_right _ _
      obtain ⟨rs0, final, hloop, hcf, hfe, hcov, hnames, _⟩ :=
        ih (min (current + budget w - 1) e + 1) (by omega)
          (fun w2 hw2 => hb w2 (List.mem_cons_of_mem _ hw2))
      refine ⟨⟨w.name, w.hashes_per_second, current,
          min (current + budget w - 1) e,
          if min (current + budget w - 1) e - current + 1 ≤ 2 ^ 64 - 1
          then min (current + budget w - 1) e - current + 1 else 2 ^ 64 - 1,
          estTimeMinutes w.hashes_per_second
            (if min (current + budget w - 1) e - current + 1 ≤ 2 ^ 64 - 1
             then min (current + budget w - 1) e - current + 1
             else 2 ^ 64 - 1)⟩ :: rs0,
        final, ?_, by omega, hfe, ⟨rfl, hwe1, hcov⟩, ?_,
        fun _ _ => List.cons_ne_nil _ _⟩
      · rw [distLoop_cons budget e w ws current (not_lt.mpr hec) hnz
          (not_lt.mpr hwe1), hloop]
      · simp only [List.map_cons, List.length_cons, List.take_succ_cons]
        rw [hnames]

/-- C2 (amended): for every non-empty worker list whose computed per-worker
key budgets are all at least 1 (which positive throughputs and positive
target times need not guarantee, but every non-degenerate configuration
does), and every range `[s, e]` with `s ≤ e`, the allocator succeeds and its
assignment list followed by the optional leftover exactly partitions
`[s, e]`: the first piece begins at `s`, each piece is non-empty, each next
piece begins one past the previous piece's end, the last piece ends at `e`,
and the assignments carry the names of a prefix of the worker list in input
order. -/
theorem allocator_partitions_range (budget : Worker → ℕ)
    (workers : List Worker) (s e : ℕ) (hne : workers ≠ [])
    (hb : ∀ w ∈ workers, 1 ≤ budget w) (hse : s ≤ e) :
    ∃ ranges leftover,
      distributeRangeToWorkers budget workers s e =
        DistResult.ok ranges leftover ∧
      ranges ≠ [] ∧
      coversExactly s
        (ranges.map (fun wr => (wr.start_val, wr.end_val)) ++
          leftoverPieces leftover) (e + 1) ∧
      ranges.map (fun wr => wr.worker_name) =
        (workers.map (fun w => w.name)).take ranges.length := by
  obtain ⟨rs, final, hloop, hcf, hfe, hcov, hnames, hnonempty⟩ :=
    distLoop_spec budget e workers s (by omega) hb
  have hisEmpty : workers.isEmpty = false := by
    cases workers with
    | nil => exact absurd rfl hne
    | cons w ws => rfl
  have hne2 : ¬ e < s := not_lt.mpr hse
  refine ⟨rs, if final ≤ e then some (final, e) else none, ?_,
    hnonempty hne hse, ?_, hnames⟩
  · simp only [distributeRangeToWorkers, hisEmpty, Bool.false_eq_true,
      if_false, hne2, hloop]
  · by_cases hfin : final ≤ e
    · rw [if_pos hfin]
      exact coversExactly_append _ _ _ _ _ hcov ⟨rfl, hfin, rfl⟩
    · rw [if_neg hfin]
      have hfeq : final = e + 1 := by omega
      simp only [leftoverPieces, List.append_nil]
      rw [← hfeq]
      exact hcov

/-- C2 witness: the partition applied to one worker with a 10-key budget on
the range `[0, 25]`, which yields one assignment and a leftover. -/
theorem allocator_partitions_range_witness :
    ∃ ranges leftover,
      distributeRangeToWorkers (fun _ => 10) [⟨"Worker C", 3⟩] 0 25 =
        DistResult.ok ranges leftover ∧
      ranges ≠ [] ∧
      coversExactly 0
        (ranges.map (fun wr => (wr.start_val, wr.end_val)) ++
          leftoverPieces leftover) (25 + 1) ∧
      ranges.map (fun wr => wr.worker_name) =
        (([⟨"Worker C", 3⟩] : List Worker).map (fun w => w.name)).take
          ranges.length :=
  allocator_partitions_range (fun _ => 10) [⟨"Worker C", 3⟩] 0 25
    (List.cons_ne_nil _ _) (fun w _ => by norm_num) (by decide)

/-- Helper: on a ring of size 1 every move lands on position 0. -/
theorem walkMove_one (fwd : Bool) (step : ℕ) : walkMove fwd 0 step 1 = 0 := by
  cases fwd with
  | true => simp [walkMove, moveForward, Nat.mod_one]
  | false =>
    simp only [walkMove, moveBackward, Nat.mod_one, Bool.false_eq_true,
      if_false]
    split
    · omega
    · simp

/-- C7: on the single-key range `[k, k]`, when the key's fingerprint
derivation succeeds and one of the derived fingerprints lies in the target
set, any iteration budget of at least 1 makes the walk return a match whose
private key is `k` rendered as the fixed-width 64-digit hex string, together
with a matched fingerprint — for every random source and every seed, since
all ring positions reduce to 0 modulo the range size 1. -/
theorem walk_single_key_range_finds_match {R : Type} (rng : Rng R) (r0 : R)
    (derive : ℕ → Option (List String)) (k : ℕ) (targets : List String)
    (addrs : List String) (a : String) (max_iter adapt_interval : ℕ)
    (hmi : 1 ≤ max_iter) (hd : derive k = some addrs) (ha : a ∈ addrs)
    (hat : a ∈ targets) :
    ∃ addr, adaptiveRandomWalkSearch rng derive k k targets max_iter
        adapt_interval r0 = some (some (format064x k, addr)) ∧
      addr ∈ targets ∧ addr ∈ addrs := by
  obtain ⟨n, rfl⟩ : ∃ n, max_iter = n + 1 := ⟨max_iter - 1, by omega⟩
  obtain ⟨s0, r1, hg1⟩ : ∃ s0 r1, rng.genRange 1 100 r0 = (s0, r1) :=
    ⟨_, _, rfl⟩
  obtain ⟨u0, r2, hg2⟩ : ∃ u0 r2, rng.genU64 r1 = (u0, r2) := ⟨_, _, rfl⟩
  obtain ⟨p0, r3, hg3⟩ : ∃ p0 r3, rng.genF64 r2 = (p0, r3) := ⟨_, _, rfl⟩
  have hfindSome : (addrs.find? (fun x => targets.contains x)).isSome := by
    rw [List.find?_isSome]
    exact ⟨a, ha, List.elem_eq_true_of_mem hat⟩
  obtain ⟨addr, hfind⟩ := Option.isSome_iff_exists.mp hfindSome
  have hc : targets.contains addr = true := List.find?_some hfind
  have haddr1 : addr ∈ targets := by simpa [List.contains] using hc
  have haddr2 : addr ∈ addrs := List.mem_of_find?_eq_some hfind
  refine ⟨addr, ?_, haddr1, haddr2⟩
  simp only [adaptiveRandomWalkSearch, lt_self_iff_false, if_false,
    Nat.sub_self, Nat.zero_add, one_ne_zero, hg1, hg2, Nat.mod_one]
  simp only [walkLoop, hg3, walkMove_one, Nat.add_zero, List.not_mem_nil,
    if_false, oracleHit, hd, hfind]

/-- C7 witness: the single-key walk evaluated at key 5 with a two-address
derivation whose second address is the sole target, budget 1, under the
degenerate random source. -/
theorem walk_single_key_range_finds_match_witness :
    ∃ addr, adaptiveRandomWalkSearch constRng
        (fun n => if n = 5 then some ["addr one", "addr two"] else none) 5 5
        ["addr two"] 1 100 () = some (some (format064x 5, addr)) ∧
      addr ∈ ["addr two"] ∧ addr ∈ ["addr one", "addr two"] :=
  walk_single_key_range_finds_match constRng ()
    (fun n => if n = 5 then some ["addr one", "addr two"] else none) 5
    ["addr two"] ["addr one", "addr two"] "addr two" 1 100 (by decide)
    (by decide) (by decide) (by decide)
